import Mathlib

/-!
Verification development for the ferret SSH tunnel broker.

The Go sources are shallowly embedded: pure computations become Lean
functions, the process-wide registries (`Hosts`, `Tunnels`, `hostKeysMap`,
`identityMap`) become explicit association lists threaded through the
validation functions, and the file system, DNS and network side effects
become oracle parameters.  Go byte strings on the stats wire are modeled as
`List Char`; this identifies a Go string with its sequence of Unicode scalar
values (the UTF-8 encoding is injective, maps the zero character to the zero
byte and produces a zero byte nowhere else, so the zero-byte framing of the
stats protocol is faithfully reflected at the character level).
-/

namespace Ferret

/-! ## TunnelStats and its JSON wire format (internal/statistics.go)

`writeUpdate` serializes `[]*TunnelStats` with `json.Marshal` and pads the
result with trailing zero bytes to the next 256-byte boundary; `receiveStats`
cuts the received bytes at the first zero byte and feeds them to
`json.Unmarshal`.  The serializer below reproduces the exact output of
`encoding/json` for this record shape (field order `name`, `connections`,
`received`, `transmitted`; default HTML-escaping of `<`, `>`, `&`; control
characters as `\uOOXX`; `U+2028`/`U+2029` escaped); the parser reproduces
`json.Unmarshal` on that grammar, including the standard JSON escapes. -/

/-- The per-tunnel counters of `TunnelStats` (statistics.go).  Go `int` and
`int64` are modeled as `Int`; the counters stay far below `2^63` so two's
complement wrap-around is not reachable and exact integers are faithful. -/
structure TunnelStats where
  name : String
  connections : Int
  received : Int
  transmitted : Int
deriving Repr, DecidableEq

/-- Decimal digit character for `d < 10`. -/
def digitChar (d : Nat) : Char := Char.ofNat (48 + d)

/-- Lowercase hexadecimal digit character for `d < 16`, as `encoding/json`
emits inside `\u` escapes. -/
def lhexChar (d : Nat) : Char :=
  if d < 10 then Char.ofNat (48 + d) else Char.ofNat (87 + d)

/-- Decimal digits with explicit recursion depth; the depth argument only has
to exceed the number of digits, so `natDigits` passes `n + 1`. -/
def natDigitsAux : Nat → Nat → List Char
  | 0, _ => []
  | fuel + 1, n =>
    if n < 10 then [digitChar n]
    else natDigitsAux fuel (n / 10) ++ [digitChar (n % 10)]

/-- Decimal digits of `n`, most significant first (the output of Go
`strconv.AppendInt` on a nonnegative value). -/
def natDigits (n : Nat) : List Char := natDigitsAux (n + 1) n

/-- Decimal character sequence of an integer, with a leading minus sign on
negatives, as `encoding/json` emits for `int`/`int64` fields. -/
def intChars (i : Int) : List Char :=
  if i < 0 then '-' :: natDigits i.natAbs else natDigits i.natAbs

/-- Go `encoding/json` escaping of one character of a string value (default
encoder: HTML escaping enabled). -/
def escChar (c : Char) : List Char :=
  if c = '"' then ['\\', '"']
  else if c = '\\' then ['\\', '\\']
  else if c = '\n' then ['\\', 'n']
  else if c = '\r' then ['\\', 'r']
  else if c = '\t' then ['\\', 't']
  else if c.toNat < 0x20 ∨ c = '<' ∨ c = '>' ∨ c = '&' then
    ['\\', 'u', '0', '0', lhexChar (c.toNat / 16), lhexChar (c.toNat % 16)]
  else if c.toNat = 0x2028 ∨ c.toNat = 0x2029 then
    ['\\', 'u', '2', '0', '2', lhexChar (c.toNat % 16)]
  else [c]

/-- A JSON string literal (both quotes included) for a Go string value. -/
def jsonString (s : String) : List Char :=
  '"' :: s.data.flatMap escChar ++ ['"']

/-- The opening brace, the `name` key and the opening quote of its value. -/
def nameKey : List Char := ['{', '"', 'n', 'a', 'm', 'e', '"', ':', '"']

/-- The `connections` key between the name value and its integer. -/
def connKey : List Char :=
  [',', '"', 'c', 'o', 'n', 'n', 'e', 'c', 't', 'i', 'o', 'n', 's', '"', ':']

/-- The `received` key between two integers. -/
def recvKey : List Char := [',', '"', 'r', 'e', 'c', 'e', 'i', 'v', 'e', 'd', '"', ':']

/-- The `transmitted` key between two integers. -/
def transKey : List Char :=
  [',', '"', 't', 'r', 'a', 'n', 's', 'm', 'i', 't', 't', 'e', 'd', '"', ':']

/-- The `json.Marshal` image of one `*TunnelStats` record, in Go struct field
order: `{"name":<string>,"connections":<int>,"received":<int64>,"transmitted":<int64>}`. -/
def serializeStat (t : TunnelStats) : List Char :=
  nameKey ++ t.name.data.flatMap escChar
    ++ '"' :: (connKey ++ (intChars t.connections
    ++ (recvKey ++ (intChars t.received
    ++ (transKey ++ (intChars t.transmitted ++ ['}']))))))

/-- Comma-separated `json.Marshal` images of the elements of a slice. -/
def serializeItems : List TunnelStats → List Char
  | [] => []
  | [t] => serializeStat t
  | t :: t2 :: ts => serializeStat t ++ ',' :: serializeItems (t2 :: ts)

/-- The `json.Marshal` image of a (non-nil) `[]*TunnelStats` slice. -/
def serializeStats (l : List TunnelStats) : List Char :=
  '[' :: serializeItems l ++ [']']

/-- The zero character standing for the zero byte of the wire protocol. -/
def zeroChar : Char := Char.ofNat 0

/-- The frame `writeUpdate` sends (statistics.go:148): the serialized update
followed by `zeros[256-x:]` where `x = 256 - (len(update) % 256)`, that is,
by `x` zero bytes, padding to the next 256-byte boundary. -/
def writeUpdateFrame (update : List Char) : List Char :=
  update ++ List.replicate (256 - update.length % 256) zeroChar

/-- The payload extraction of `receiveStats` (statistics.go:194): the received
bytes strictly before the first zero byte (`str[:strings.IndexByte(str, 0)]`). -/
def frameBeforeZero (s : List Char) : List Char :=
  s.takeWhile (fun c => c ≠ zeroChar)

/-! ### The `json.Unmarshal` side, restricted to the grammar `json.Marshal`
emits for `[]*TunnelStats`.  Decoders consume a prefix of the character list
and return the parsed value with the unconsumed tail. -/

/-- Numeric value of a hexadecimal digit character, as in JSON `\u` escapes. -/
def hexDigitVal (c : Char) : Option Nat :=
  if 48 ≤ c.toNat ∧ c.toNat ≤ 57 then some (c.toNat - 48)
  else if 97 ≤ c.toNat ∧ c.toNat ≤ 102 then some (c.toNat - 87)
  else if 65 ≤ c.toNat ∧ c.toNat ≤ 70 then some (c.toNat - 55)
  else none

/-- Value of a four-digit hexadecimal escape body. -/
def hexQuad (a b c d : Char) : Option Nat := do
  let va ← hexDigitVal a
  let vb ← hexDigitVal b
  let vc ← hexDigitVal c
  let vd ← hexDigitVal d
  some (((va * 16 + vb) * 16 + vc) * 16 + vd)

/-- One decoded unit of a JSON string literal: a character taken literally or
produced by a single-character escape, or the 16-bit value of a `\u` escape
(which may be a surrogate half, so it is kept numeric until pairing). -/
inductive StrUnit where
  | raw (c : Char)
  | esc (n : Nat)
deriving Repr, DecidableEq

/-- Resolution of a single-character escape, as `json.Unmarshal` accepts. -/
def unescChar (e : Char) : Option Char :=
  match e with
  | '"' => some '"'
  | '\\' => some '\\'
  | '/' => some '/'
  | 'b' => some (Char.ofNat 8)
  | 'f' => some (Char.ofNat 12)
  | 'n' => some '\n'
  | 'r' => some '\r'
  | 't' => some '\t'
  | _ => none

/-- Scan a JSON string literal after its opening quote into decoded units,
stopping at the closing quote and returning the tail after it. -/
def strTokens : List Char → Option (List StrUnit × List Char)
  | [] => none
  | '"' :: rest => some ([], rest)
  | '\\' :: 'u' :: a :: b :: c :: d :: rest =>
    match hexQuad a b c d with
    | none => none
    | some n => (strTokens rest).map (fun p => (StrUnit.esc n :: p.1, p.2))
  | '\\' :: e :: rest =>
    match unescChar e with
    | some u => (strTokens rest).map (fun p => (StrUnit.raw u :: p.1, p.2))
    | none => none
  | c :: rest => (strTokens rest).map (fun p => (StrUnit.raw c :: p.1, p.2))

/-- Combine `\u` surrogate halves as `encoding/json`'s `unquote` does: a high
half immediately followed by a low half yields the coded character, a stray
half yields `U+FFFD`.  The first argument is a pending high half waiting for
its partner. -/
def combineAux : Option Nat → List StrUnit → List Char
  | none, [] => []
  | some _, [] => [Char.ofNat 0xFFFD]
  | none, StrUnit.raw c :: rest => c :: combineAux none rest
  | none, StrUnit.esc n :: rest =>
    if 0xD800 ≤ n ∧ n < 0xDC00 then combineAux (some n) rest
    else if 0xDC00 ≤ n ∧ n < 0xE000 then Char.ofNat 0xFFFD :: combineAux none rest
    else Char.ofNat n :: combineAux none rest
  | some n, StrUnit.esc m :: rest =>
    if 0xDC00 ≤ m ∧ m < 0xE000 then
      Char.ofNat (0x10000 + (n - 0xD800) * 0x400 + (m - 0xDC00)) :: combineAux none rest
    else if 0xD800 ≤ m ∧ m < 0xDC00 then Char.ofNat 0xFFFD :: combineAux (some m) rest
    else Char.ofNat 0xFFFD :: Char.ofNat m :: combineAux none rest
  | some _, StrUnit.raw c :: rest => Char.ofNat 0xFFFD :: c :: combineAux none rest

/-- Unescaped characters of a scanned string literal, with no pending half. -/
def combineUnits (l : List StrUnit) : List Char := combineAux none l

/-- Content of a JSON string literal after its opening quote: unescapes up to
the closing quote and returns the content with the tail after the quote,
mirroring `encoding/json`. -/
def parseStringBody (s : List Char) : Option (List Char × List Char) :=
  (strTokens s).map (fun p => (combineUnits p.1, p.2))

/-- The decoded unit a scanner yields for the escape `escChar c`, following
the branch structure of `escChar`: characters escaped as `\u` sequences come
back as numeric units, everything else as the character itself. -/
def escUnit (c : Char) : StrUnit :=
  if c = '"' then StrUnit.raw c
  else if c = '\\' then StrUnit.raw c
  else if c = '\n' then StrUnit.raw c
  else if c = '\r' then StrUnit.raw c
  else if c = '\t' then StrUnit.raw c
  else if c.toNat < 0x20 ∨ c = '<' ∨ c = '>' ∨ c = '&' then StrUnit.esc c.toNat
  else if c.toNat = 0x2028 ∨ c.toNat = 0x2029 then StrUnit.esc c.toNat
  else StrUnit.raw c

/-- Greedily consume decimal digits, folding their value onto `acc`; returns
the value together with the consumed count and the tail. -/
def consumeDigits (acc : Nat) : List Char → Nat × Nat × List Char
  | c :: rest =>
    if 48 ≤ c.toNat ∧ c.toNat ≤ 57 then
      let r := consumeDigits (acc * 10 + (c.toNat - 48)) rest
      (r.1, r.2.1 + 1, r.2.2)
    else (acc, 0, c :: rest)
  | [] => (acc, 0, [])

/-- Parse a JSON integer token (optional minus sign, at least one digit), as
`json.Unmarshal` accepts for an `int`/`int64` field. -/
def parseIntTok : List Char → Option (Int × List Char)
  | '-' :: rest =>
    let r := consumeDigits 0 rest
    if r.2.1 = 0 then none else some (-(r.1 : Int), r.2.2)
  | l =>
    let r := consumeDigits 0 l
    if r.2.1 = 0 then none else some ((r.1 : Int), r.2.2)

/-- Require the input to start with the given literal characters and return
the tail after them. -/
def expectLit : List Char → List Char → Option (List Char)
  | [], s => some s
  | p :: ps, c :: cs => if c = p then expectLit ps cs else none
  | _ :: _, [] => none

/-- Parse one serialized `TunnelStats` object. -/
def parseStat (s : List Char) : Option (TunnelStats × List Char) := do
  let s ← expectLit nameKey s
  let (nm, s) ← parseStringBody s
  let s ← expectLit connKey s
  let (cn, s) ← parseIntTok s
  let s ← expectLit recvKey s
  let (rc, s) ← parseIntTok s
  let s ← expectLit transKey s
  let (tx, s) ← parseIntTok s
  let s ← expectLit ['}'] s
  some (⟨⟨nm⟩, cn, rc, tx⟩, s)

/-- Parse the comma-separated elements of a non-empty array, with fuel
bounding the number of elements. -/
def parseItems : Nat → List Char → Option (List TunnelStats × List Char)
  | 0, _ => none
  | fuel + 1, s => do
    let (t, s) ← parseStat s
    match s with
    | ']' :: rest => some ([t], rest)
    | ',' :: s2 => do
      let (ts, rest) ← parseItems fuel s2
      some (t :: ts, rest)
    | _ => none

/-- The `json.Unmarshal` image of a full payload as `[]*TunnelStats`: the
whole input must be one serialized slice with nothing trailing. -/
def parseStats (s : List Char) : Option (List TunnelStats) :=
  match s with
  | '[' :: ']' :: rest => if rest = [] then some [] else none
  | '[' :: s1 =>
    match parseItems (s1.length + 1) s1 with
    | some (ts, []) => some ts
    | _ => none
  | _ => none

/-- Truth of "the input does not begin with a decimal digit", the shape of
every tail that follows an integer field in the serialized record. -/
def noDigitHead : List Char → Bool
  | [] => true
  | c :: _ => !(decide (48 ≤ c.toNat ∧ c.toNat ≤ 57))

/-! ## The relay copy loop (`Tunnel.copy`, statistics.go:425) -/

/-- One iteration of the I/O script driving `Tunnel.copy`: the outcome of
`src.Read` into the 32 KiB buffer (`nr` bytes, `er` true when a read error or
EOF occurred) and, consulted only when `nr > 0`, the outcome of
`dst.Write(buf[0:nr])` (`nw` reported count, `ew` true when a write error
occurred).  `nw` is an integer because a broken `io.Writer` may report a
negative count, which the Go code clamps to zero. -/
structure CopyStep where
  nr : Nat
  er : Bool
  nw : Int
  ew : Bool

/-- The clamp `Tunnel.copy` applies to the reported write count: a negative
count or one larger than the bytes handed to the writer becomes zero (and
forces `errInvalidWrite`). -/
def clampW (nr : Nat) (nw : Int) : Int :=
  if nw < 0 ∨ (nr : Int) < nw then 0 else nw

/-- Whether the iteration leaves the loop after its stats update: on a write
error (including the forced `errInvalidWrite`), on a short write
(`nr != nw` after clamping, yielding `io.ErrShortWrite`), or on a read error
or EOF reported together with the read bytes.  All three `break` with the
same loop state; only the returned error differs, which the counters do not
see. -/
def stepStops (s : CopyStep) : Bool :=
  s.ew ∨ decide (s.nw < 0 ∨ (s.nr : Int) < s.nw)
    ∨ decide ((s.nr : Int) ≠ clampW s.nr s.nw) ∨ s.er

/-- Run of one direction of `Tunnel.copy` over an I/O script, threading the
owning TunnelStats counter for that direction (`Received` when copying from
the local side, `Transmitted` otherwise).  Returns the final counter, the
counter value after each executed stats update, and the `(nr, nw)` write
results of the executed iterations.  Mirrors the Go control flow: when bytes
were read, clamp the reported write count, add it to the counter and signal
the stats sink, then stop or continue per `stepStops`; when no bytes were
read, stop exactly on a read error. -/
def copyRun (counter : Int) : List CopyStep → Int × List Int × List (Nat × Int)
  | [] => (counter, [], [])
  | s :: rest =>
    if s.nr > 0 then
      let c2 := counter + clampW s.nr s.nw
      if stepStops s then (c2, [c2], [(s.nr, s.nw)])
      else
        let r := copyRun c2 rest
        (r.1, c2 :: r.2.1, (s.nr, s.nw) :: r.2.2)
    else if s.er then (counter, [], [])
    else copyRun counter rest

/-! ## The stats broadcaster (`statsBroadcaster`, statistics.go:113) -/

/-- The minimum inter-broadcast interval (`interval = time.Second * 5`), in
seconds of idealized model time. -/
def interval : Int := 5

/-- The settle delay waited when the interval has already elapsed
(`time.NewTimer(time.Second)`). -/
def settleDelay : Int := 1

/-- Broadcaster state between events: the time of the last broadcast
(`lastBroadcast`, initialized to `time.Now().Add(-interval)`) and, when the
`updated` flag is set, the time at which the pending goroutine's timer fires
and broadcasts. -/
structure BState where
  lastB : Int
  pending : Option Int
deriving Repr, DecidableEq

/-- Scheduling of the broadcasting goroutine spawned at time `t` when the
last broadcast happened at `lb`: `diff := lastBroadcast + interval - now`;
the timer waits `diff` when `diff > 0`, so the broadcast fires at
`lb + interval`, and otherwise waits one second, firing at
`t + settleDelay`. -/
def bSchedule (lb : Int) (t : Int) : BState :=
  if 0 < lb + interval - t then ⟨lb, some (lb + interval)⟩
  else ⟨lb, some (t + settleDelay)⟩

/-- One update-channel signal arriving at time `t`, in an idealized timed
model where the spawned goroutine runs exactly when its timer expires: a
pending broadcast that is due fires first (setting `lastBroadcast` to its
time and clearing `updated`), after which the signal schedules the next
broadcast; a pending broadcast that is not yet due makes the signal a no-op
(the `updated` flag is still set); with nothing pending the signal schedules
a broadcast.  At least one subscriber is assumed connected, since the
broadcast goroutine is only spawned then.  Returns the new state and the
broadcasts emitted while handling the signal. -/
def bSignal (st : BState) (t : Int) : BState × List Int :=
  match st.pending with
  | some p => if p ≤ t then (bSchedule p t, [p]) else (st, [])
  | none => (bSchedule st.lastB t, [])

/-- Broadcast times emitted for a list of signal arrival times, letting the
final pending timer fire at the end. -/
def bRun (st : BState) : List Int → List Int
  | [] =>
    match st.pending with
    | some p => [p]
    | none => []
  | t :: ts =>
    let r := bSignal st t
    r.2 ++ bRun r.1 ts

/-! ## The stats subscriber loop (`receiveStats`, statistics.go:170) -/

/-- One `conn.Read(bs)` outcome seen by the subscriber: a read error, or the
content of the 256-byte buffer after the read together with the returned
count `n`.  The model script supplies the whole buffer content because
`receiveStats` appends `string(bs)` — all of `bs`, not `bs[:n]` — whenever
`n > 0`. -/
inductive ReadEv where
  | errR
  | chunk (bs : List Char) (n : Nat)

/-- The subscriber loop of `receiveStats`: accumulate buffers into `str`;
when the last read byte `bs[n-1]` is the zero byte, cut `str` at the first
zero byte, attempt `json.Unmarshal` on the payload, print the stats table on
success (and nothing on failure), reset `str` and keep reading; leave the
loop only when `conn.Read` fails.  Returns the list of parsed tables
printed.  Scripts have `n ≥ 1` on successful reads (a zero-byte read would
index `bs[-1]` and is outside the modeled behavior). -/
def receiveLoop : List ReadEv → List Char → List (List TunnelStats)
  | [], _ => []
  | ReadEv.errR :: _, _ => []
  | ReadEv.chunk bs n :: rest, str =>
    let str2 := if n > 0 then str ++ bs else str
    if bs.getD (n - 1) (Char.ofNat 1) = zeroChar then
      (match parseStats (frameBeforeZero str2) with
       | some ts => [ts]
       | none => []) ++ receiveLoop rest []
    else receiveLoop rest str2

/-! ## Addresses (src/unnamed/part_000, address.go) -/

/-- Outcome of `net.LookupIP` on the host part, as a DNS oracle: lookup
failure, an empty result, a first entry with no IPv4 form, or a first entry
whose canonical IPv4 string is `canon`. -/
inductive LookupRes where
  | errL
  | emptyL
  | noIp4
  | ip4 (canon : String)

/-- The Address value type: the raw or resolved `address` string, the parsed
`port`, and the `valid` flag. -/
structure Address where
  address : String
  port : Int := 0
  valid : Bool := false
deriving Repr, DecidableEq

/-- `NewAddress`. -/
def NewAddress (s : String) : Address := { address := s }

/-- `Address.IsBlank`. -/
def Address.IsBlank (a : Address) : Bool := a.address == ""

/-- The two pieces of `strings.Split(s, ":")` when it yields exactly two
parts, i.e. when the string has exactly one colon. -/
def splitHostPort (s : String) : Option (String × String) :=
  match s.data.splitOn ':' with
  | [h, p] => some (⟨h⟩, ⟨p⟩)
  | _ => none

/-- Decimal value of a digit run. -/
def digitsVal (ds : List Char) : Int :=
  ((ds.foldl (fun a c => a * 10 + (c.toNat - 48)) 0 : Nat) : Int)

/-- Go `strconv.Atoi`: optional sign then at least one decimal digit
(values beyond int64 would error in Go; the ports exercised here are small
enough that exact integers are faithful). -/
def atoiChars (s : List Char) : Option Int :=
  let digitsOnly := fun (l : List Char) =>
    !l.isEmpty && l.all (fun c => decide (48 ≤ c.toNat ∧ c.toNat ≤ 57))
  match s with
  | '+' :: rest => if digitsOnly rest then some (digitsVal rest) else none
  | '-' :: rest => if digitsOnly rest then some (-(digitsVal rest)) else none
  | l => if digitsOnly l then some (digitsVal l) else none

/-- `Address.ValidateAddress` of the older address.go (src/unnamed/part_000,
lines 64-114): set `valid := true`; reject a string without exactly one
colon; resolve the host part through the DNS oracle — an error is fatal only
for non-remote addresses, an empty result is fatal, a first entry that is
not IPv4 only prints an error *without clearing `valid`*, and a resolved
IPv4 rewrites `address` to the canonical literal (non-remote) or the host
part (remote); then parse the port, reject it outside `1 <= i <= 65536`
(the source's own range check and error message), and on success append the
port back onto `address` and store it. -/
def Address.ValidateAddress (a : Address) (lookup : String → LookupRes) (remote : Bool) :
    Address × Bool :=
  let a0 := { a with valid := true }
  match splitHostPort a0.address with
  | none => ({ a0 with valid := false }, false)
  | some (host, portStr) =>
    let a1 :=
      match lookup host with
      | LookupRes.errL => if remote then a0 else { a0 with valid := false }
      | LookupRes.emptyL => { a0 with valid := false }
      | LookupRes.noIp4 => a0
      | LookupRes.ip4 canon =>
        if remote then { a0 with address := host } else { a0 with address := canon }
    let a2 :=
      match atoiChars portStr.data with
      | none => { a1 with valid := false }
      | some i =>
        if i < 1 ∨ i > 65536 then { a1 with valid := false }
        else { a1 with address := a1.address ++ ":" ++ toString i, port := i }
    (a2, a2.valid)

/-- Modelled from the spec: the five-argument `Address.Validate` (with
`IsValid` and `Port`) of the current address.go is not under src/ — only its
callers in host.go and the tunnel code are.  Per spec §3, validation checks
the `ip:port` syntax, resolves the host part (a step "that may rewrite
`resolvedAddress` to a canonical IPv4 literal", modeled as the identity
since the claims below only exercise literals, which resolve to themselves),
parses the port, and establishes the invariant that `valid == true` implies
a complete `ip:port` pair with `1 <= port <= 65535`.  The boolean arguments
select remote resolution and do not affect this abstraction; the
message-context arguments are dropped. -/
def Address.validateM (a : Address) : Address :=
  match splitHostPort a.address with
  | none => { a with valid := false }
  | some (_, portStr) =>
    match atoiChars portStr.data with
    | none => { a with valid := false }
    | some i =>
      if i < 1 ∨ i > 65535 then { a with valid := false }
      else { a with port := i, valid := true }

/-! ## Hosts, tunnels and the registries (internal/host.go, statistics.go) -/

/-- Whitespace in the sense of Go `strings.TrimSpace` (the ASCII cases; the
names in the configurations exercised here contain no exotic Unicode
spaces). -/
def isSpaceChar (c : Char) : Bool :=
  c == ' ' || c == '\t' || c == '\n' || c == '\x0b' || c == '\x0c' || c == '\x0d'

/-- Go `strings.TrimSpace`: strip leading and trailing whitespace. -/
def trimS (s : String) : String :=
  ⟨(((s.data.dropWhile isSpaceChar).reverse.dropWhile isSpaceChar).reverse)⟩

/-- An `ssh.HostKeyCallback`: hostname, remote address and presented key to
an optional error. -/
def HostKeyCb : Type := String × String × String → Option String

/-- The callback registered in `hostKeysMap` under the empty known_hosts
path (host.go:17): it returns nil for every server key. -/
def acceptAllKeys : HostKeyCb := fun _ => none

/-- The parts of `ssh.ClientConfig` the embedding tracks.  A `none` callback
models the nil `ssh.HostKeyCallback` a missing `hostKeysMap` entry yields. -/
structure ClientConfig where
  user : String
  hostKeyCallback : Option HostKeyCb

/-- The Host record (host.go:24) with the runtime fields the claims need. -/
structure Host where
  name : String
  address : Option Address
  username : String := ""
  identity : String := ""
  passphrase : String := ""
  knownHosts : String := ""
  jumpHost : String := ""
  isHost : Bool := false
  isJumpHost : Bool := false
  config : Option ClientConfig := none

/-- The Tunnel record (statistics.go:231).  `localA` is the `Local` field
(`local` is reserved in Lean). -/
structure Tunnel where
  name : String
  localA : Option Address := none
  host : String
  forward : Option Address

/-- Name-keyed lookup in a registry association list. -/
def lookupS {β : Type} (k : String) : List (String × β) → Option β
  | [] => none
  | (k2, v) :: rest => if k2 = k then some v else lookupS k rest

/-- Name-keyed insert-or-replace, the map assignment `m[k] = v`. -/
def upsert {β : Type} (k : String) (v : β) : List (String × β) → List (String × β)
  | [] => [(k, v)]
  | (k2, v2) :: rest => if k2 = k then (k, v) :: rest else (k2, v2) :: upsert k v rest

/-- The process-wide registries of the validation phase: `Hosts`, `Tunnels`,
`hostKeysMap` (seeded with the accept-all callback under the empty path) and
the keys of `identityMap`. -/
structure ValState where
  hosts : List (String × Host) := []
  tunnels : List (String × Tunnel) := []
  hostKeys : List (String × HostKeyCb) := [("", acceptAllKeys)]
  identities : List String := []

/-- Oracle for the file-system and key-parsing effects of `Host.Validate`:
whether the known_hosts cascade (stat, `knownhosts.New`) succeeds and which
callback it yields, and whether the identity cascade (stat, `ReadFile`,
private-key parsing with the trimmed passphrase) succeeds.  `verbose` is the
global `verboseFlag`. -/
structure Env where
  knownHostsOk : String → Bool
  hostKeyFor : String → HostKeyCb
  identityOk : String → Bool
  verbose : Bool

/-- The address option after the validation `Host.Validate` and
`Tunnel.Validate` apply: a nil or blank address is left as is (only an error
is printed), anything else goes through `Address.Validate`. -/
def validatedAddr (oa : Option Address) : Option Address :=
  match oa with
  | none => none
  | some a => if a.IsBlank then some a else some a.validateM

/-- Whether the address checks of the caller leave `valid` intact: nil and
blank addresses are errors, otherwise the verdict of `Address.Validate`. -/
def addrOk (oa : Option Address) : Bool :=
  match oa with
  | none => false
  | some a => if a.IsBlank then false else a.validateM.valid

/-- `Host.Validate` (host.go:66) over the registry state: the name blank and
redefinition checks, the username default (applied, as in the source, only
under `verboseFlag`), the known_hosts and identity cascades through the
oracle, the address checks, the jump-host self-reference check that
otherwise clears `known_hosts`, the `ssh.ClientConfig` construction whose
host-key callback is looked up under the (possibly cleared) known_hosts
path, and the registration `Hosts[h.Name] = h`, performed even when
validation failed.  Returns the new state, the updated host and validity. -/
def Host.validate (env : Env) (defaultUsername : String) (st : ValState) (h : Host) :
    ValState × Host × Bool :=
  let name := trimS h.name
  let username := trimS h.username
  let username := if username == "" && env.verbose then defaultUsername else username
  let kh := trimS h.knownHosts
  let khKnown := (lookupS kh st.hostKeys).isSome
  let hostKeys :=
    if khKnown then st.hostKeys
    else if env.knownHostsOk kh then upsert kh (env.hostKeyFor kh) st.hostKeys
    else st.hostKeys
  let ident := trimS h.identity
  let identKnown := st.identities.contains ident
  let identities :=
    if identKnown then st.identities
    else if env.identityOk ident then ident :: st.identities
    else st.identities
  let addr := validatedAddr h.address
  let selfJump := h.jumpHost != "" && h.jumpHost == name
  let kh2 := if h.jumpHost != "" && !selfJump then "" else kh
  let config : ClientConfig := { user := username, hostKeyCallback := lookupS kh2 hostKeys }
  let valid := !(name == "") && !(lookupS name st.hosts).isSome
    && (khKnown || env.knownHostsOk kh)
    && !(ident == "") && (identKnown || env.identityOk ident)
    && addrOk h.address
    && !selfJump
  let h2 : Host := { h with
    name := name
    username := username
    identity := ident
    knownHosts := kh2
    address := addr
    config := some config }
  ({ st with
      hosts := upsert name h2 st.hosts
      hostKeys := hostKeys
      identities := identities }, h2, valid)

/-- `Tunnel.Validate` of the current tunnel code (statistics.go:355): the
name checks, forward address validation, defaulting of a nil or blank local
address to `127.0.0.1:<forward port>` when the forward address validated, the
local address validation — a local address that is missing and cannot be
derived is only reported, it does not clear `valid`, as in the source —, the
host reference check that marks the referenced host with `isHost`, and the
registration `Tunnels[t.Name] = t`, performed even when invalid. -/
def Tunnel.validate (st : ValState) (t : Tunnel) : ValState × Tunnel × Bool :=
  let name := trimS t.name
  let fwd := validatedAddr t.forward
  let fOk := addrOk t.forward
  let needDefault := (t.localA.isNone || (t.localA.map Address.IsBlank).getD false)
    && t.forward.isSome && (fwd.map Address.valid).getD false
  let lcl0 :=
    if needDefault then
      some (NewAddress ("127.0.0.1:" ++ toString ((fwd.map Address.port).getD 0)))
    else t.localA
  let lcl := validatedAddr lcl0
  let lOk :=
    match lcl0 with
    | none => true
    | some l => if l.IsBlank then true else l.validateM.valid
  let host := trimS t.host
  let hostFound := (lookupS host st.hosts).isSome
  let hosts2 :=
    if host == "" then st.hosts
    else
      match lookupS host st.hosts with
      | none => st.hosts
      | some hh => upsert host { hh with isHost := true } st.hosts
  let valid := !(name == "") && !(lookupS name st.tunnels).isSome
    && fOk && lOk && !(host == "") && hostFound
  let t2 : Tunnel := { name := name, localA := lcl, host := host, forward := fwd }
  ({ st with hosts := hosts2, tunnels := upsert name t2 st.tunnels }, t2, valid)

/-- `validateJumpHosts` (host.go:196) as a fold over a snapshot of the Hosts
registry keys (Go iterates the map in arbitrary order; the properties proved
below hold for the snapshot order).  For every host with a non-empty
`jump_host` that some tunnel references (`isHost`): an undefined jump host or
a jump host that itself has a `jump_host` clears `valid`; otherwise a free
port is taken from the supply `ports` (an exhausted supply models `freePort`
failure, which clears `valid` and breaks out of the loop), a synthetic
tunnel named `"<jump host name> jumphost"` from `127.0.0.1:<port>` through
the jump host to the host's current address is built and validated — which
registers it and marks the jump host as a tunnel target — and the host's
address is overwritten with the synthetic tunnel's local address. -/
def vjhAux : List String → List Nat → ValState → Bool → ValState × List Nat × Bool
  | [], ports, st, valid => (st, ports, valid)
  | nm :: rest, ports, st, valid =>
    match lookupS nm st.hosts with
    | none => vjhAux rest ports st valid
    | some h =>
      if h.jumpHost ≠ "" ∧ h.isHost then
        match lookupS h.jumpHost st.hosts with
        | none => vjhAux rest ports st false
        | some jh =>
          if jh.jumpHost ≠ "" then vjhAux rest ports st false
          else
            match ports with
            | [] => (st, [], false)
            | p :: ports2 =>
              let jt : Tunnel :=
                { name := jh.name ++ " jumphost"
                  localA := some (NewAddress ("127.0.0.1:" ++ toString p))
                  host := h.jumpHost
                  forward := h.address }
              let r := Tunnel.validate st jt
              let st2 := { r.1 with
                hosts := upsert nm { h with address := r.2.1.localA } r.1.hosts }
              vjhAux rest ports2 st2 valid
      else vjhAux rest ports st valid

/-- `validateJumpHosts` over the current registry. -/
def validateJumpHosts (ports : List Nat) (st : ValState) : ValState × Bool :=
  let r := vjhAux (st.hosts.map Prod.fst) ports st true
  (r.1, r.2.2)

/-- A configuration file's contents (src/unnamed/part_002). -/
structure Configuration where
  hosts : List Host
  tunnels : List Tunnel

/-- The host- and tunnel-validation passes of `Configuration.Validate`,
starting from the empty registries. -/
def validateHostsAndTunnels (env : Env) (defaultUsername : String)
    (cfg : Configuration) : ValState × Bool :=
  let r1 := cfg.hosts.foldl (fun acc h =>
    let r := Host.validate env defaultUsername acc.1 h
    (r.1, acc.2 && r.2.2)) ({}, true)
  cfg.tunnels.foldl (fun acc t =>
    let r := Tunnel.validate acc.1 t
    (r.1, acc.2 && r.2.2)) r1

/-- `Configuration.Validate` (src/unnamed/part_002): validate every host,
then every tunnel, then run the jump-host resolver, prune hosts that are
neither tunnel targets nor jump hosts, and return the conjunction of all
verdicts. -/
def Configuration.validate (env : Env) (defaultUsername : String) (ports : List Nat)
    (cfg : Configuration) : ValState × Bool :=
  let r1 := validateHostsAndTunnels env defaultUsername cfg
  let r2 := validateJumpHosts ports r1.1
  let st := { r2.1 with
    hosts := r2.1.hosts.filter (fun kv => kv.2.isHost || kv.2.isJumpHost) }
  (st, r1.2 && r2.2)

/-! ## Host.Open and Host.Dial (host.go:39, host.go:54) -/

/-- Outcome of `Host.Dial`: a nil-pointer dereference (the Go runtime panic
raised inside `(*ssh.Client).Dial` when no session exists), or the Go return
value `(conn, ok)`. -/
inductive DialOutcome where
  | nilDeref
  | ret (conn : Option Nat) (success : Bool)
deriving Repr, DecidableEq

/-- The runtime connection state of a Host: the `client` field, set only by
a successful `Open`. -/
structure HostConn where
  client : Option Nat
deriving Repr, DecidableEq

/-- `Host.Dial` (host.go:54): open a logical channel over the session.  With
`client == nil` the call dereferences the nil pointer and panics; otherwise
the network oracle decides whether the stream opens, a failure returning
`(nil, false)`. -/
def hostDial (h : HostConn) (net : Nat → String → Option Nat) (address : String) :
    DialOutcome :=
  match h.client with
  | none => DialOutcome.nilDeref
  | some c =>
    match net c address with
    | some conn => DialOutcome.ret (some conn) true
    | none => DialOutcome.ret none false

/-- `Host.Open` (host.go:39): establish the shared session lazily; an
existing session is reused, otherwise `ssh.Dial` (the oracle `sshDial`)
either yields a session or fails. -/
def hostOpen (h : HostConn) (sshDial : Option Nat) : HostConn × Bool :=
  match h.client with
  | some _ => (h, true)
  | none =>
    match sshDial with
    | some c => ({ client := some c }, true)
    | none => (h, false)

/-- The registry situation `validateJumpHosts` rejects for a key `nm`: the
registered host is a tunnel target (`isHost`), names a jump host, and that
jump host is undefined or itself names a jump host (host.go:204-212). -/
def jumpInv (hosts : List (String × Host)) (nm : String) : Prop :=
  ∃ h, lookupS nm hosts = some h ∧ h.isHost = true ∧ h.jumpHost ≠ ""
    ∧ ((lookupS h.jumpHost hosts).map (fun jh => jh.jumpHost != "")).getD true = true

/-! ## Round-trip lemmas for the wire format -/

theorem natDigitsAux_congr (m : Nat) : ∀ f1 f2, m < f1 → m < f2 →
    natDigitsAux f1 m = natDigitsAux f2 m := by
  induction m using Nat.strong_induction_on with
  | _ m ih =>
    intro f1 f2 h1 h2
    cases f1 with
    | zero => omega
    | succ a =>
      cases f2 with
      | zero => omega
      | succ b =>
        rw [natDigitsAux, natDigitsAux]
        by_cases hm : m < 10
        · simp [hm]
        · simp only [if_neg hm]
          have hd : m / 10 < m := Nat.div_lt_self (by omega) (by omega)
          rw [ih (m / 10) hd a b (by omega) (by omega)]

theorem natDigits_eq (n : Nat) :
    natDigits n =
      if n < 10 then [digitChar n] else natDigits (n / 10) ++ [digitChar (n % 10)] := by
  by_cases h : n < 10
  · rw [natDigits, natDigitsAux]
    simp [h]
  · have hd : n / 10 < n := Nat.div_lt_self (by omega) (by omega)
    rw [natDigits, natDigitsAux, if_neg h,
      natDigitsAux_congr (n / 10) n (n / 10 + 1) hd (Nat.lt_succ_self _), if_neg h]
    rfl

theorem digitChar_toNat : ∀ d, d < 10 → (digitChar d).toNat = 48 + d := by decide

theorem natDigits_are_digits (n : Nat) :
    ∀ c ∈ natDigits n, 48 ≤ c.toNat ∧ c.toNat ≤ 57 := by
  induction n using Nat.strong_induction_on with
  | _ n ih =>
    rw [natDigits_eq]
    by_cases h : n < 10
    · simp only [if_pos h, List.mem_singleton]
      rintro c rfl
      rw [digitChar_toNat n h]; omega
    · simp only [if_neg h, List.mem_append, List.mem_singleton]
      rintro c (hc | rfl)
      · exact ih (n / 10) (Nat.div_lt_self (by omega) (by omega)) c hc
      · rw [digitChar_toNat _ (Nat.mod_lt n (by omega))]; omega

theorem natDigits_ne_nil (n : Nat) : natDigits n ≠ [] := by
  rw [natDigits_eq]
  by_cases h : n < 10 <;> simp [h]

theorem consumeDigits_spec (ds : List Char) :
    ∀ acc rest, (∀ c ∈ ds, 48 ≤ c.toNat ∧ c.toNat ≤ 57) → noDigitHead rest = true →
      consumeDigits acc (ds ++ rest) =
        (ds.foldl (fun a c => a * 10 + (c.toNat - 48)) acc, ds.length, rest) := by
  induction ds with
  | nil =>
    intro acc rest _ hrest
    cases rest with
    | nil => rfl
    | cons c t =>
      simp only [noDigitHead, Bool.not_eq_eq_eq_not, Bool.not_true, decide_eq_false_iff_not]
        at hrest
      simp [consumeDigits, hrest]
  | cons c t ih =>
    intro acc rest hds hrest
    have hc := hds c (by simp)
    rw [List.cons_append, consumeDigits, if_pos hc,
      ih _ rest (fun x hx => hds x (by simp [hx])) hrest]
    simp

theorem foldl_natDigits (n : Nat) :
    (natDigits n).foldl (fun a c => a * 10 + (c.toNat - 48)) 0 = n := by
  induction n using Nat.strong_induction_on with
  | _ n ih =>
    rw [natDigits_eq]
    by_cases h : n < 10
    · simp only [if_pos h, List.foldl_cons, List.foldl_nil]
      rw [digitChar_toNat n h]; omega
    · simp only [if_neg h, List.foldl_append, List.foldl_cons, List.foldl_nil]
      rw [ih (n / 10) (Nat.div_lt_self (by omega) (by omega)),
        digitChar_toNat _ (Nat.mod_lt n (by omega))]
      omega

theorem consumeDigits_natDigits (n : Nat) (rest : List Char)
    (hrest : noDigitHead rest = true) :
    consumeDigits 0 (natDigits n ++ rest) = (n, (natDigits n).length, rest) := by
  rw [consumeDigits_spec _ _ _ (natDigits_are_digits n) hrest, foldl_natDigits]

theorem parseIntTok_fallback (c : Char) (l : List Char) (hc : c ≠ '-') :
    parseIntTok (c :: l) =
      (if (consumeDigits 0 (c :: l)).2.1 = 0 then none
       else some (((consumeDigits 0 (c :: l)).1 : Int), (consumeDigits 0 (c :: l)).2.2)) := by
  rw [parseIntTok.eq_def]
  split
  · next heq => injection heq with h1 _; exact absurd h1 hc
  · rfl

theorem parseIntTok_intChars (i : Int) (rest : List Char)
    (hrest : noDigitHead rest = true) :
    parseIntTok (intChars i ++ rest) = some (i, rest) := by
  by_cases hneg : i < 0
  · simp only [intChars, if_pos hneg, List.cons_append, parseIntTok,
      consumeDigits_natDigits i.natAbs rest hrest]
    have hlen := natDigits_ne_nil i.natAbs
    have hne : (natDigits i.natAbs).length ≠ 0 := fun h => hlen (List.eq_nil_of_length_eq_zero h)
    simp only [if_neg hne]
    rw [show -((i.natAbs : ℤ)) = i by omega]
  · obtain ⟨d, ds, hds⟩ : ∃ d ds, natDigits i.natAbs = d :: ds := by
      cases h : natDigits i.natAbs with
      | nil => exact absurd h (natDigits_ne_nil _)
      | cons d ds => exact ⟨d, ds, rfl⟩
    have hd : 48 ≤ d.toNat ∧ d.toNat ≤ 57 :=
      natDigits_are_digits i.natAbs d (by rw [hds]; simp)
    have hdneq : d ≠ '-' := by
      intro h; subst h; exact absurd hd (by decide)
    have h2 : consumeDigits 0 (natDigits i.natAbs ++ rest)
        = (i.natAbs, (natDigits i.natAbs).length, rest) :=
      consumeDigits_natDigits _ rest hrest
    rw [hds, List.cons_append] at h2
    simp only [intChars, if_neg hneg, hds, List.cons_append]
    rw [parseIntTok_fallback d (ds ++ rest) hdneq, h2,
      show ((i.natAbs : ℤ)) = i by omega]
    simp

theorem expectLit_append (p l : List Char) : expectLit p (p ++ l) = some l := by
  induction p with
  | nil => rfl
  | cons c t ih => simp [expectLit, ih]

theorem hexDigitVal_lhexChar : ∀ d, d < 16 → hexDigitVal (lhexChar d) = some d := by decide

theorem strTokens_plain (c : Char) (l : List Char) (h1 : c ≠ '"') (h2 : c ≠ '\\') :
    strTokens (c :: l) = (strTokens l).map (fun p => (StrUnit.raw c :: p.1, p.2)) := by
  rw [strTokens.eq_def]
  split <;> rename_i hs
  · exact absurd hs (by simp)
  · rw [List.cons.injEq] at hs
    exact absurd hs.1 h1
  · rw [List.cons.injEq] at hs
    exact absurd hs.1 h2
  · rw [List.cons.injEq] at hs
    exact absurd hs.1 h2
  · injection hs with hc hl
    subst hc; subst hl
    rfl

theorem char_not_surrogate (c : Char) :
    ¬(0xD800 ≤ c.toNat ∧ c.toNat < 0xDC00) ∧ ¬(0xDC00 ≤ c.toNat ∧ c.toNat < 0xE000) := by
  have hv := c.valid
  have he : c.toNat = c.val.toNat := rfl
  rcases hv with h | ⟨ha, hb⟩
  · constructor <;> intro hc <;> rw [he] at hc <;> omega
  · constructor <;> intro hc <;> rw [he] at hc <;> omega

theorem escUnit_cases (c : Char) :
    escUnit c = StrUnit.raw c ∨ escUnit c = StrUnit.esc c.toNat := by
  unfold escUnit
  repeat' first
    | exact Or.inl rfl
    | exact Or.inr rfl
    | split

theorem strTokens_escChar (c : Char) (l : List Char) :
    strTokens (escChar c ++ l) = (strTokens l).map (fun p => (escUnit c :: p.1, p.2)) := by
  by_cases h1 : c = '"'
  · subst h1; simp [escChar, escUnit, strTokens, unescChar]
  by_cases h2 : c = '\\'
  · subst h2; simp [escChar, escUnit, strTokens, unescChar]
  by_cases h3 : c = '\n'
  · subst h3; simp [escChar, escUnit, strTokens, unescChar]
  by_cases h4 : c = '\r'
  · subst h4; simp [escChar, escUnit, strTokens, unescChar]
  by_cases h5 : c = '\t'
  · subst h5; simp [escChar, escUnit, strTokens, unescChar]
  by_cases h6 : c.toNat < 0x20 ∨ c = '<' ∨ c = '>' ∨ c = '&'
  · have hlt : c.toNat < 256 := by
      rcases h6 with h | h | h | h
      · omega
      all_goals subst h; decide
    have heq : escChar c
        = ['\\', 'u', '0', '0', lhexChar (c.toNat / 16), lhexChar (c.toNat % 16)] := by
      simp [escChar, h1, h2, h3, h4, h5, h6]
    rw [heq]
    have hq : hexQuad '0' '0' (lhexChar (c.toNat / 16)) (lhexChar (c.toNat % 16))
        = some c.toNat := by
      rw [hexQuad, show hexDigitVal '0' = some 0 from rfl,
        hexDigitVal_lhexChar (c.toNat / 16) (by omega),
        hexDigitVal_lhexChar (c.toNat % 16) (by omega)]
      simp only [Option.bind_eq_bind, Option.some_bind, Option.some.injEq]
      omega
    have hu : escUnit c = StrUnit.esc c.toNat := by
      simp [escUnit, h1, h2, h3, h4, h5, h6]
    simp [strTokens, hq, hu]
  by_cases h7 : c.toNat = 0x2028 ∨ c.toNat = 0x2029
  · have heq : escChar c = ['\\', 'u', '2', '0', '2', lhexChar (c.toNat % 16)] := by
      simp [escChar, h1, h2, h3, h4, h5, h6, h7]
    rw [heq]
    have hq : hexQuad '2' '0' '2' (lhexChar (c.toNat % 16)) = some c.toNat := by
      rw [hexQuad, show hexDigitVal '2' = some 2 from rfl,
        show hexDigitVal '0' = some 0 from rfl,
        hexDigitVal_lhexChar (c.toNat % 16) (by omega)]
      simp only [Option.bind_eq_bind, Option.some_bind, Option.some.injEq]
      omega
    have hu : escUnit c = StrUnit.esc c.toNat := by
      simp [escUnit, h1, h2, h3, h4, h5, h6, h7]
    simp [strTokens, hq, hu]
  · have heq : escChar c = [c] := by
      simp [escChar, h1, h2, h3, h4, h5, h6, h7]
    have hu : escUnit c = StrUnit.raw c := by
      simp [escUnit, h1, h2, h3, h4, h5, h6, h7]
    rw [heq, hu, List.singleton_append, strTokens_plain c l h1 h2]

theorem strTokens_flatMap (cs : List Char) (l : List Char) :
    strTokens (cs.flatMap escChar ++ '"' :: l) = some (cs.map escUnit, l) := by
  induction cs with
  | nil => rfl
  | cons c cs ih =>
    rw [List.flatMap_cons, List.append_assoc, strTokens_escChar, ih, List.map_cons]
    rfl

theorem combineUnits_map_escUnit (cs : List Char) : combineUnits (cs.map escUnit) = cs := by
  rw [combineUnits]
  induction cs with
  | nil => rfl
  | cons c cs ih =>
    have hs := char_not_surrogate c
    rcases escUnit_cases c with hu | hu <;> rw [List.map_cons, hu]
    · rw [combineAux, ih]
    · rw [combineAux, if_neg hs.1, if_neg hs.2, Char.ofNat_toNat, ih]

theorem parseStringBody_escape (cs : List Char) (l : List Char) :
    parseStringBody (cs.flatMap escChar ++ '"' :: l) = some (cs, l) := by
  rw [parseStringBody, strTokens_flatMap]
  simp [combineUnits_map_escUnit]

theorem noDigitHead_recvKey (l : List Char) : noDigitHead (recvKey ++ l) = true := rfl

theorem noDigitHead_transKey (l : List Char) : noDigitHead (transKey ++ l) = true := rfl

theorem noDigitHead_brace (l : List Char) : noDigitHead ('}' :: l) = true := rfl

theorem expectLit_brace (l : List Char) : expectLit ['}'] ('}' :: l) = some l := rfl

theorem parseStat_serializeStat (t : TunnelStats) (rest : List Char) :
    parseStat (serializeStat t ++ rest) = some (t, rest) := by
  rw [serializeStat, parseStat]
  simp only [List.append_assoc, List.cons_append, List.singleton_append, List.nil_append]
  rw [expectLit_append]
  simp only [Option.bind_eq_bind, Option.some_bind]
  rw [parseStringBody_escape]
  simp only [Option.some_bind]
  rw [expectLit_append]
  simp only [Option.some_bind]
  rw [parseIntTok_intChars _ _ (noDigitHead_recvKey _)]
  simp only [Option.some_bind]
  rw [expectLit_append]
  simp only [Option.some_bind]
  rw [parseIntTok_intChars _ _ (noDigitHead_transKey _)]
  simp only [Option.some_bind]
  rw [expectLit_append]
  simp only [Option.some_bind]
  rw [parseIntTok_intChars _ _ (noDigitHead_brace _)]
  simp only [Option.some_bind]
  rw [expectLit_brace]
  simp only [Option.some_bind]

theorem length_le_serializeItems (l : List TunnelStats) :
    l.length ≤ (serializeItems l).length := by
  induction l with
  | nil => simp [serializeItems]
  | cons t ts ih =>
    cases ts with
    | nil => simp [serializeItems, serializeStat, nameKey]
    | cons t2 ts2 =>
      rw [serializeItems]
      have h1 : 1 ≤ (serializeStat t).length := by simp [serializeStat, nameKey]
      simp only [List.length_append, List.length_cons] at ih ⊢
      omega

theorem parseItems_serializeItems (l : List TunnelStats) :
    ∀ fuel, l.length ≤ fuel → l ≠ [] → ∀ rest,
      parseItems fuel (serializeItems l ++ ']' :: rest) = some (l, rest) := by
  induction l with
  | nil => intro _ _ hne; exact absurd rfl hne
  | cons t ts ih =>
    intro fuel hfuel _ rest
    cases fuel with
    | zero => simp at hfuel
    | succ f =>
      cases ts with
      | nil =>
        rw [serializeItems, parseItems]
        simp only [Option.bind_eq_bind]
        rw [parseStat_serializeStat]
        simp only [Option.some_bind]
      | cons t2 ts2 =>
        rw [serializeItems, parseItems]
        simp only [Option.bind_eq_bind, List.append_assoc, List.cons_append]
        rw [parseStat_serializeStat]
        simp only [Option.some_bind]
        rw [ih f (by simp at hfuel ⊢; omega) (by simp) rest]
        simp only [Option.some_bind]

theorem serializeStat_open (t : TunnelStats) :
    serializeStat t = '{' :: (['"', 'n', 'a', 'm', 'e', '"', ':', '"']
      ++ t.name.data.flatMap escChar
      ++ '"' :: (connKey ++ (intChars t.connections
      ++ (recvKey ++ (intChars t.received
      ++ (transKey ++ (intChars t.transmitted ++ ['}']))))))) := rfl

theorem parseStats_serializeStats (l : List TunnelStats) :
    parseStats (serializeStats l) = some l := by
  cases l with
  | nil => rfl
  | cons t ts =>
    obtain ⟨y, hy⟩ : ∃ y, serializeItems (t :: ts) = '{' :: y := by
      cases ts with
      | nil => exact ⟨_, by rw [serializeItems]; exact serializeStat_open t⟩
      | cons t2 ts2 =>
        exact ⟨(['"', 'n', 'a', 'm', 'e', '"', ':', '"']
            ++ t.name.data.flatMap escChar
            ++ '"' :: (connKey ++ (intChars t.connections
            ++ (recvKey ++ (intChars t.received
            ++ (transKey ++ (intChars t.transmitted ++ ['}'])))))))
            ++ ',' :: serializeItems (t2 :: ts2), by
          rw [serializeItems, serializeStat_open t, List.cons_append]⟩
    have hform : serializeStats (t :: ts) = '[' :: '{' :: (y ++ [']']) := by
      rw [serializeStats, hy]
      rfl
    rw [hform]
    have hopen : parseStats ('[' :: '{' :: (y ++ [']']))
        = (match parseItems (('{' :: (y ++ [']'])).length + 1) ('{' :: (y ++ [']'])) with
           | some (ts2, []) => some ts2
           | _ => none) := rfl
    rw [hopen]
    have hfuel : (t :: ts).length ≤ ('{' :: (y ++ [']'])).length + 1 := by
      have h1 := length_le_serializeItems (t :: ts)
      rw [hy] at h1
      simp only [List.length_append, List.length_cons] at h1 ⊢
      omega
    have hitems := parseItems_serializeItems (t :: ts)
      (('{' :: (y ++ [']'])).length + 1) hfuel (by simp) []
    rw [show serializeItems (t :: ts) ++ ']' :: []
        = serializeItems (t :: ts) ++ [']'] from rfl, hy, List.cons_append] at hitems
    rw [hitems]

theorem frameBeforeZero_pad (u : List Char) (k : Nat) (hu : zeroChar ∉ u) :
    frameBeforeZero (u ++ List.replicate k zeroChar) = u := by
  induction u with
  | nil =>
    cases k with
    | zero => rfl
    | succ k => simp [frameBeforeZero, List.replicate_succ, List.takeWhile_cons]
  | cons c u ih =>
    have hc : c ≠ zeroChar := fun h => hu (by simp [h])
    have hu2 : zeroChar ∉ u := fun h => hu (by simp [h])
    have ih2 := ih hu2
    rw [frameBeforeZero] at ih2 ⊢
    rw [List.cons_append, List.takeWhile_cons]
    simp only [ne_eq, decide_not] at ih2
    simp [hc, ih2]

/-- C2: for every list of TunnelStats records whose serialization contains no
zero byte, serializing it, padding with trailing zero bytes to the next
256-byte boundary as the publisher (`writeUpdate`) does, and then parsing the
received bytes up to the first zero byte as the subscriber (`receiveStats`)
does yields exactly the original records, with the same name, connections,
received and transmitted values in the same order. -/
theorem C2_stats_frame_roundtrip (l : List TunnelStats)
    (hz : zeroChar ∉ serializeStats l) :
    parseStats (frameBeforeZero (writeUpdateFrame (serializeStats l))) = some l := by
  rw [writeUpdateFrame, frameBeforeZero_pad _ _ hz, parseStats_serializeStats]

theorem clampW_nonneg (nr : Nat) (nw : Int) : 0 ≤ clampW nr nw := by
  rw [clampW]
  split <;> omega

theorem copyRun_spec (script : List CopyStep) :
    ∀ init : Int,
      List.Chain' (· ≤ ·) (init :: (copyRun init script).2.1)
        ∧ (copyRun init script).1
            = init + (((copyRun init script).2.2).map (fun w => clampW w.1 w.2)).sum := by
  induction script with
  | nil =>
    intro init
    simp [copyRun]
  | cons s rest ih =>
    intro init
    rw [copyRun]
    by_cases h1 : s.nr > 0
    · rw [if_pos h1]
      have hcl := clampW_nonneg s.nr s.nw
      have hmono : init ≤ init + clampW s.nr s.nw := by omega
      by_cases h2 : stepStops s = true
      · rw [if_pos h2]
        constructor
        · simp [List.chain'_cons, hmono]
        · simp
      · rw [if_neg h2]
        obtain ⟨ihc, ihe⟩ := ih (init + clampW s.nr s.nw)
        refine ⟨List.chain'_cons.mpr ⟨hmono, ihc⟩, ?_⟩
        simp only [List.map_cons, List.sum_cons]
        rw [ihe]
        omega
    · rw [if_neg h1]
      by_cases h2 : s.er = true
      · rw [if_pos h2]
        simp
      · rw [if_neg h2]
        exact ih init

theorem sum_clampW_of_honest (ws : List (Nat × Int))
    (hw : ∀ w ∈ ws, 0 ≤ w.2 ∧ w.2 ≤ (w.1 : Int)) :
    (ws.map (fun w => clampW w.1 w.2)).sum = (ws.map (fun w => w.2)).sum := by
  induction ws with
  | nil => rfl
  | cons w ws ih =>
    have h := hw w (by simp)
    simp only [List.map_cons, List.sum_cons, ih (fun x hx => hw x (by simp [hx]))]
    rw [clampW, if_neg (by omega)]

/-- C4: along every execution of one direction of the relay copy loop, the
owning TunnelStats counter trace is monotonically non-decreasing (every stats
update adds a non-negative clamped byte count), and whenever the writer obeys
the io.Writer contract — the reported count `nw` with `0 ≤ nw ≤ nr` being the
bytes actually written — the final counter never exceeds the starting value
plus the total number of bytes successfully written in that direction. -/
theorem C4_copy_counter_monotone_bounded (script : List CopyStep) (init : Int) :
    List.Chain' (· ≤ ·) (init :: (copyRun init script).2.1)
      ∧ ((∀ w ∈ (copyRun init script).2.2, 0 ≤ w.2 ∧ w.2 ≤ (w.1 : Int)) →
          (copyRun init script).1
            ≤ init + (((copyRun init script).2.2).map (fun w => w.2)).sum) := by
  obtain ⟨hc, he⟩ := copyRun_spec script init
  refine ⟨hc, fun hw => ?_⟩
  rw [he, sum_clampW_of_honest _ hw]

/-- Witness for C4: a run that relays 5 bytes, then 3 bytes together with a
read error. -/
theorem C4_copy_counter_monotone_bounded_witness :
    List.Chain' (· ≤ ·)
        (0 :: (copyRun 0 [⟨5, false, 5, false⟩, ⟨3, true, 3, false⟩]).2.1)
      ∧ (copyRun 0 [⟨5, false, 5, false⟩, ⟨3, true, 3, false⟩]).1
          ≤ 0 + (((copyRun 0 [⟨5, false, 5, false⟩, ⟨3, true, 3, false⟩]).2.2).map
              (fun w => w.2)).sum :=
  ⟨(C4_copy_counter_monotone_bounded [⟨5, false, 5, false⟩, ⟨3, true, 3, false⟩] 0).1,
    (C4_copy_counter_monotone_bounded [⟨5, false, 5, false⟩, ⟨3, true, 3, false⟩] 0).2
      (by decide)⟩

theorem bSchedule_lastB (lb t : Int) : (bSchedule lb t).lastB = lb := by
  rw [bSchedule]
  split <;> rfl

theorem bSchedule_pending (lb t : Int) :
    ∀ q, (bSchedule lb t).pending = some q → lb + interval ≤ q := by
  intro q hq
  rw [bSchedule] at hq
  have hi : interval = 5 := rfl
  have hs : settleDelay = 1 := rfl
  split at hq <;> rename_i hd <;> injection hq with hq <;> omega

theorem bSchedule_idle (lb t : Int) (h : lb + interval ≤ t) :
    bSchedule lb t = ⟨lb, some (t + settleDelay)⟩ := by
  rw [bSchedule, if_neg (by omega)]

theorem bSignal_due (st : BState) (t p : Int) (hp : st.pending = some p) (h : p ≤ t) :
    bSignal st t = (bSchedule p t, [p]) := by
  rw [bSignal, hp]
  dsimp only
  rw [if_pos h]

theorem bSignal_wait (st : BState) (t p : Int) (hp : st.pending = some p) (h : ¬p ≤ t) :
    bSignal st t = (st, []) := by
  rw [bSignal, hp]
  dsimp only
  rw [if_neg h]

theorem bSignal_none (st : BState) (t : Int) (hp : st.pending = none) :
    bSignal st t = (bSchedule st.lastB t, []) := by
  rw [bSignal, hp]

theorem bRun_pending_head (ts : List Int) : ∀ (st : BState) (p : Int),
    st.pending = some p → (bRun st ts).head? = some p := by
  induction ts with
  | nil =>
    intro st p hp
    rw [bRun, hp]
    rfl
  | cons t ts ih =>
    intro st p hp
    rw [bRun]
    by_cases h : p ≤ t
    · rw [bSignal_due st t p hp h]
      simp
    · rw [bSignal_wait st t p hp h]
      simpa using ih st p hp

theorem bRun_spec (ts : List Int) : ∀ st : BState,
    (∀ p, st.pending = some p → st.lastB + interval ≤ p) →
    List.Chain' (fun a b => a + interval ≤ b) (bRun st ts)
      ∧ ∀ e ∈ bRun st ts, st.lastB + interval ≤ e := by
  induction ts with
  | nil =>
    intro st hinv
    cases hp : st.pending with
    | none => rw [bRun, hp]; simp
    | some p =>
      rw [bRun, hp]
      dsimp only
      refine ⟨List.chain'_singleton p, ?_⟩
      intro e he
      rw [List.mem_singleton] at he
      rw [he]
      exact hinv p hp
  | cons t ts ih =>
    intro st hinv
    rw [bRun]
    cases hp : st.pending with
    | some p =>
      have hlp := hinv p hp
      by_cases hf : p ≤ t
      · rw [bSignal_due st t p hp hf]
        have hlb := bSchedule_lastB p t
        obtain ⟨ihc, ihb⟩ := ih (bSchedule p t) (by rw [hlb]; exact bSchedule_pending p t)
        rw [hlb] at ihb
        refine ⟨?_, ?_⟩
        · rw [List.singleton_append]
          refine List.chain'_cons'.mpr ⟨?_, ihc⟩
          intro b hb
          exact ihb b (List.mem_of_mem_head? hb)
        · intro e he
          rw [List.singleton_append] at he
          rcases List.mem_cons.mp he with rfl | he2
          · exact hlp
          · have h5 := ihb e he2
            have hi : interval = 5 := rfl
            omega
      · rw [bSignal_wait st t p hp hf]
        simpa using ih st hinv
    | none =>
      rw [bSignal_none st t hp]
      have hlb := bSchedule_lastB st.lastB t
      obtain ⟨ihc, ihb⟩ := ih (bSchedule st.lastB t)
        (by rw [hlb]; exact bSchedule_pending st.lastB t)
      rw [hlb] at ihb
      exact ⟨by simpa using ihc, by simpa using ihb⟩

theorem chain_gap_lower (l : List Int) : ∀ x : Int,
    List.Chain' (fun a b => a + interval ≤ b) (x :: l) →
    ∀ e ∈ l, x + interval ≤ e := by
  induction l with
  | nil =>
    intro x _ e he
    simp at he
  | cons b l ih =>
    intro x h e he
    have hxb : x + interval ≤ b := (List.chain'_cons.mp h).1
    have htail := (List.chain'_cons.mp h).2
    rcases List.mem_cons.mp he with rfl | he2
    · exact hxb
    · have hb := ih b htail e he2
      have hi : interval = 5 := rfl
      omega

theorem gap_chain_window (l : List Int) (w : Int)
    (h : List.Chain' (fun a b => a + interval ≤ b) l) :
    l.countP (fun e => decide (w ≤ e ∧ e < w + interval)) ≤ 1 := by
  induction l with
  | nil => simp
  | cons a l ih =>
    have htail : List.Chain' (fun a b => a + interval ≤ b) l := h.tail
    rw [List.countP_cons]
    by_cases ha : w ≤ a ∧ a < w + interval
    · have hz : l.countP (fun e => decide (w ≤ e ∧ e < w + interval)) = 0 := by
        rw [List.countP_eq_zero]
        intro e he
        have h5 := chain_gap_lower l a h e he
        have hi : interval = 5 := rfl
        simp only [decide_eq_true_eq]
        omega
      rw [hz]
      simp [ha]
    · have hfa : (decide (w ≤ a ∧ a < w + interval)) = false := by
        simp only [decide_eq_false_iff_not]
        exact ha
      rw [hfa]
      simpa using ih htail

/-- C3: in the idealized timed model of `statsBroadcaster`, starting from any
state whose pending broadcast respects the minimum spacing (in particular
from the initial state, `lastBroadcast = now - interval` with nothing
pending), the emitted broadcast times for any sequence of stats-mutation
signals contain at most one broadcast in any half-open window of `interval`
(5 seconds) length; and when the broadcaster is idle — no broadcast pending
and at least `interval` elapsed since the last one — the first signal at
time `t` is answered by a broadcast exactly at `t + settleDelay`, i.e.
within 1 second. -/
theorem C3_broadcaster_rate_limit (st : BState) (ts : List Int) (t : Int)
    (hinv : ∀ p, st.pending = some p → st.lastB + interval ≤ p) :
    (∀ w : Int, (bRun st ts).countP (fun e => decide (w ≤ e ∧ e < w + interval)) ≤ 1)
      ∧ (st.pending = none → st.lastB + interval ≤ t →
          (bRun st (t :: ts)).head? = some (t + settleDelay) ∧ settleDelay ≤ 1) := by
  constructor
  · intro w
    exact gap_chain_window _ w (bRun_spec ts st hinv).1
  · intro hpn hidle
    rw [bRun, bSignal_none st t hpn, bSchedule_idle st.lastB t hidle]
    refine ⟨?_, by decide⟩
    have hh := bRun_pending_head ts ⟨st.lastB, some (t + settleDelay)⟩ (t + settleDelay) rfl
    simpa using hh

/-- Witness for C3: the broadcaster starts idle at time 0 (last broadcast at
`-interval`), receives a burst of signals at times 0, 1 and 2, answers the
first within 1 second, and emits at most one broadcast in the window
starting at 0. -/
theorem C3_broadcaster_rate_limit_witness :
    (bRun ⟨-5, none⟩ [0, 1, 2]).countP
        (fun e => decide (0 ≤ e ∧ e < 0 + interval)) ≤ 1
      ∧ (bRun ⟨-5, none⟩ (0 :: [1, 2])).head? = some (0 + settleDelay) :=
  ⟨(C3_broadcaster_rate_limit ⟨-5, none⟩ [1, 2] 0 (fun p hp => nomatch hp)).1 0,
    ((C3_broadcaster_rate_limit ⟨-5, none⟩ [1, 2] 0 (fun p hp => nomatch hp)).2
      rfl (by decide)).1⟩

/-- C8: a received frame whose payload — the bytes before the first zero
byte — fails to parse as TunnelStats records is discarded by the subscriber:
handling the frame produces no output and the loop's behavior on the
remaining reads is exactly that of a fresh iteration over them, so the
subscriber keeps reading the next frame from the connection instead of
disconnecting or terminating. -/
theorem C8_subscriber_discards_bad_frame (bs : List Char) (n : Nat)
    (rest : List ReadEv) (str : List Char)
    (hz : bs.getD (n - 1) (Char.ofNat 1) = zeroChar)
    (hbad : parseStats (frameBeforeZero (if n > 0 then str ++ bs else str)) = none) :
    receiveLoop (ReadEv.chunk bs n :: rest) str = receiveLoop rest [] := by
  rw [receiveLoop, if_pos hz, hbad]
  simp

/-- Witness for C8: a malformed frame followed by a well-formed frame; the
bad frame is dropped and the following frame still parses and prints. -/
theorem C8_subscriber_discards_bad_frame_witness :
    receiveLoop
        [ReadEv.chunk ['x', zeroChar] 2, ReadEv.chunk ['[', ']', zeroChar] 3] []
      = [[]] := by
  rw [C8_subscriber_discards_bad_frame ['x', zeroChar] 2 _ [] (by decide) (by decide)]
  decide

/-- C9: `Host.Dial` on a Host whose `Open` never succeeded dereferences the
nil `client` inside `(*ssh.Client).Dial` and panics instead of returning
`(nil, false)`; once `Open` has succeeded the session is present and `Dial`
cannot reach the nil dereference — `Dial` is total only under that
precondition. -/
theorem C9_dial_without_open_panics (net : Nat → String → Option Nat)
    (address : String) :
    hostDial { client := none } net address = DialOutcome.nilDeref
      ∧ (∀ (h : HostConn) (sshDial : Option Nat), (hostOpen h sshDial).2 = true →
          ∀ (net2 : Nat → String → Option Nat) (addr2 : String),
            hostDial (hostOpen h sshDial).1 net2 addr2 ≠ DialOutcome.nilDeref) := by
  refine ⟨rfl, ?_⟩
  intro h sshDial hopen net2 addr2
  obtain ⟨cl⟩ := h
  cases cl with
  | some c =>
    cases hnet : net2 c addr2 <;> simp [hostOpen, hostDial, hnet]
  | none =>
    cases sshDial with
    | some c =>
      cases hnet : net2 c addr2 <;> simp [hostOpen, hostDial, hnet]
    | none =>
      simp [hostOpen] at hopen

/-- Witness for C9: a host that was never opened panics on Dial; after a
successful Open the same Dial returns instead of panicking. -/
theorem C9_dial_without_open_panics_witness :
    hostDial { client := none } (fun _ _ => none) "10.0.0.5:80" = DialOutcome.nilDeref
      ∧ hostDial (hostOpen { client := none } (some 1)).1 (fun _ _ => none) "10.0.0.5:80"
          ≠ DialOutcome.nilDeref :=
  ⟨(C9_dial_without_open_panics (fun _ _ => none) "10.0.0.5:80").1,
    (C9_dial_without_open_panics (fun _ _ => none) "10.0.0.5:80").2
      { client := none } (some 1) rfl (fun _ _ => none) "10.0.0.5:80"⟩

theorem lookupS_upsert_ne {β : Type} (k k2 : String) (v : β) (l : List (String × β))
    (h : k2 ≠ k) : lookupS k2 (upsert k v l) = lookupS k2 l := by
  induction l with
  | nil =>
    simp [upsert, lookupS, Ne.symm h]
  | cons kv rest ih =>
    obtain ⟨k3, v3⟩ := kv
    by_cases he : k3 = k
    · subst he
      simp [upsert, lookupS, Ne.symm h]
    · simp only [upsert, if_neg he, lookupS]
      by_cases h2 : k3 = k2
      · simp [h2]
      · simp [h2, ih]

/-- C10: for every Host whose `jump_host` is non-empty and names a host
other than itself, `Host.Validate` clears the known_hosts path and builds
the SSH client config with the callback registered under the empty path —
the default callback that returns nil for every hostname, remote address and
server key — so host-key verification is silently disabled for all
jump-host clients. -/
theorem C10_jump_clients_accept_any_hostkey (env : Env) (du : String) (st : ValState)
    (h : Host) (hjh : h.jumpHost ≠ "") (hne : h.jumpHost ≠ trimS h.name)
    (hmap : lookupS "" st.hostKeys = some acceptAllKeys) :
    (Host.validate env du st h).2.1.knownHosts = ""
      ∧ ((Host.validate env du st h).2.1.config.map ClientConfig.hostKeyCallback)
          = some (some acceptAllKeys)
      ∧ ∀ hostname remoteAddr key,
          acceptAllKeys (hostname, remoteAddr, key) = none := by
  refine ⟨?_, ?_, fun _ _ _ => rfl⟩
  · simp [Host.validate, hjh, hne]
  · simp only [Host.validate, Option.map]
    have hcondT : (h.jumpHost != ""
        && !(h.jumpHost != "" && h.jumpHost == trimS h.name)) = true := by
      simp [hjh, hne]
    rw [if_pos hcondT]
    by_cases h1 : (lookupS (trimS h.knownHosts) st.hostKeys).isSome
    · simp only [if_pos h1]
      rw [hmap]
    · simp only [if_neg h1]
      by_cases h2 : env.knownHostsOk (trimS h.knownHosts)
      · simp only [if_pos h2]
        have hkh : trimS h.knownHosts ≠ "" := by
          intro he
          rw [he, hmap] at h1
          exact h1 (by rfl)
        rw [lookupS_upsert_ne _ _ _ _ (fun hh => hkh hh.symm), hmap]
      · simp only [if_neg h2]
        rw [hmap]

/-- Witness for C10 at a concrete jump-host client and fresh registries. -/
theorem C10_jump_clients_accept_any_hostkey_witness :
    (Host.validate ⟨fun _ => true, fun _ => acceptAllKeys, fun _ => true, false⟩ "u" {}
        { name := "B", address := some (NewAddress "10.0.0.7:22"),
          identity := "id_rsa", knownHosts := "kh", jumpHost := "A" }).2.1.knownHosts = ""
      ∧ ((Host.validate ⟨fun _ => true, fun _ => acceptAllKeys, fun _ => true, false⟩ "u" {}
            { name := "B", address := some (NewAddress "10.0.0.7:22"),
              identity := "id_rsa", knownHosts := "kh",
              jumpHost := "A" }).2.1.config.map ClientConfig.hostKeyCallback)
          = some (some acceptAllKeys)
      ∧ ∀ hostname remoteAddr key,
          acceptAllKeys (hostname, remoteAddr, key) = none :=
  C10_jump_clients_accept_any_hostkey
    ⟨fun _ => true, fun _ => acceptAllKeys, fun _ => true, false⟩ "u" {}
    { name := "B", address := some (NewAddress "10.0.0.7:22"),
      identity := "id_rsa", knownHosts := "kh", jumpHost := "A" }
    (by decide) (by decide) rfl

/-- C6 (evidence for a code defect): `ValidateAddress` of the older
address.go accepts port 65536 — its range check is `i < 1 || i > 65536` —
marking the address valid with `port = 65536 > 65535`, although 65536 is
not a representable TCP port, so the validity invariant claimed by the
specification (`valid` implies `1 <= port <= 65535`) does not hold of the
code at this input. -/
theorem C6_port_65536_accepted :
    (Address.ValidateAddress (NewAddress "1.2.3.4:65536")
        (fun _ => LookupRes.ip4 "1.2.3.4") false)
      = ({ address := "1.2.3.4:65536", port := 65536, valid := true }, true)
      ∧ ((65536 : Int) > 65535) := by
  constructor
  · rfl
  · decide

/-- Witness for C2 at a concrete two-record list. -/
theorem C2_stats_frame_roundtrip_witness :
    zeroChar ∉ serializeStats [⟨"tunnel A", 2, 1500, 64⟩, ⟨"db", 1, 0, 9⟩]
      ∧ parseStats (frameBeforeZero (writeUpdateFrame
          (serializeStats [⟨"tunnel A", 2, 1500, 64⟩, ⟨"db", 1, 0, 9⟩])))
        = some [⟨"tunnel A", 2, 1500, 64⟩, ⟨"db", 1, 0, 9⟩] :=
  ⟨by decide, C2_stats_frame_roundtrip _ (by decide)⟩


/-! ## Registry and address lemmas for the tunnel and jump-host claims -/

theorem lookupS_upsert_eq {β : Type} (k : String) (v : β) (l : List (String × β)) :
    lookupS k (upsert k v l) = some v := by
  induction l with
  | nil => simp [upsert, lookupS]
  | cons kv rest ih =>
    obtain ⟨k2, v2⟩ := kv
    by_cases he : k2 = k
    · simp [upsert, he, lookupS]
    · simp [upsert, he, lookupS, ih]

theorem lookupS_mem {β : Type} (k : String) (v : β) (l : List (String × β))
    (h : lookupS k l = some v) : (k, v) ∈ l := by
  induction l with
  | nil => simp [lookupS] at h
  | cons kv rest ih =>
    obtain ⟨k2, v2⟩ := kv
    rw [lookupS] at h
    by_cases he : k2 = k
    · rw [if_pos he] at h
      injection h with h2
      exact List.mem_cons.mpr (Or.inl (by rw [he, h2]))
    · rw [if_neg he] at h
      exact List.mem_cons.mpr (Or.inr (ih h))

theorem validateM_address (a : Address) : a.validateM.address = a.address := by
  unfold Address.validateM
  split
  · rfl
  · split
    · rfl
    · split <;> rfl

theorem loopback_ne_empty (x : String) : ("127.0.0.1:" ++ x) ≠ "" := by
  intro h
  have h2 := congrArg String.data h
  rw [String.data_append] at h2
  exact absurd (List.append_eq_nil.mp h2).1 (by decide)

theorem NewAddress_loopback_not_blank (x : String) :
    (NewAddress ("127.0.0.1:" ++ x)).IsBlank = false := by
  unfold NewAddress Address.IsBlank
  exact beq_eq_false_iff_ne.mpr (loopback_ne_empty x)

theorem tunnelValidate_name (st : ValState) (t : Tunnel) :
    (Tunnel.validate st t).2.1.name = trimS t.name := rfl

theorem tunnelValidate_host (st : ValState) (t : Tunnel) :
    (Tunnel.validate st t).2.1.host = trimS t.host := rfl

theorem tunnelValidate_forward (st : ValState) (t : Tunnel) :
    (Tunnel.validate st t).2.1.forward = validatedAddr t.forward := rfl

theorem tunnelValidate_localA_present (st : ValState) (t : Tunnel) (a : Address)
    (ha : t.localA = some a) (hb : a.IsBlank = false) :
    (Tunnel.validate st t).2.1.localA = validatedAddr t.localA := by
  simp [Tunnel.validate, ha, hb]



/-- The local-address field of the tunnel `Tunnel.Validate` returns: the
defaulted-or-original local address, passed through address validation. -/
theorem tunnelValidate_localA (st : ValState) (t : Tunnel) :
    (Tunnel.validate st t).2.1.localA
      = validatedAddr (
          if (t.localA.isNone || (t.localA.map Address.IsBlank).getD false)
              && t.forward.isSome
              && ((validatedAddr t.forward).map Address.valid).getD false
          then some (NewAddress ("127.0.0.1:"
              ++ toString (((validatedAddr t.forward).map Address.port).getD 0)))
          else t.localA) := rfl

/-- C7 counterexample: for a tunnel with no local address and the valid
forward address `10.0.0.5:80`, `Tunnel.Validate` defaults the local address
to `127.0.0.1:80`, not to the `0.0.0.0:80` the claim requires. -/
theorem C7_default_local_counterexample :
    ((Tunnel.validate {} { name := "t1", host := "A", forward := some (NewAddress "10.0.0.5:80") }).2.1.localA.map Address.address)
      = some "127.0.0.1:80"
    ∧ ((Tunnel.validate {} { name := "t1", host := "A", forward := some (NewAddress "10.0.0.5:80") }).2.1.localA.map Address.address)
      ≠ some "0.0.0.0:80" :=
  ⟨by decide, by decide⟩

/-- **C7** (amended): for every tunnel record whose local address is omitted
(nil or blank) and whose forward address is present, non-blank and validates,
`Tunnel.Validate` defaults the local address to `127.0.0.1` with the forward
address's port; the `0.0.0.0` default exists only in the superseded
part_001 version of the code. -/
theorem C7_default_local_loopback (st : ValState) (t : Tunnel) (f : Address)
    (hl : t.localA = none ∨ ∃ a, t.localA = some a ∧ a.IsBlank = true)
    (hf : t.forward = some f) (hfb : f.IsBlank = false)
    (hfv : f.validateM.valid = true) :
    (Tunnel.validate st t).2.1.localA.map Address.address
      = some ("127.0.0.1:" ++ toString f.validateM.port) := by
  have hfwd : validatedAddr t.forward = some f.validateM := by
    rw [hf]
    simp [validatedAddr, hfb]
  have hfwd2 : validatedAddr (some f) = some f.validateM := by
    simp [validatedAddr, hfb]
  have hcond : ((t.localA.isNone || (t.localA.map Address.IsBlank).getD false)
      && t.forward.isSome
      && ((validatedAddr t.forward).map Address.valid).getD false) = true := by
    rcases hl with hl | ⟨a, ha, hab⟩
    · simp [hl, hf, hfwd2, hfv]
    · simp [ha, hab, hf, hfwd2, hfv]
  have hport : ((validatedAddr t.forward).map Address.port).getD 0
      = f.validateM.port := by
    rw [hfwd]
    rfl
  have hloc : validatedAddr (some (NewAddress ("127.0.0.1:" ++ toString f.validateM.port)))
      = some (NewAddress ("127.0.0.1:" ++ toString f.validateM.port)).validateM := by
    simp [validatedAddr, NewAddress_loopback_not_blank]
  rw [tunnelValidate_localA, hport, hcond, if_pos rfl, hloc]
  simp [validateM_address, NewAddress]

theorem C7_default_local_loopback_witness :
    (Tunnel.validate {} { name := "t1", host := "A", forward := some (NewAddress "10.0.0.5:80") }).2.1.localA.map Address.address
      = some ("127.0.0.1:" ++ toString (NewAddress "10.0.0.5:80").validateM.port) :=
  C7_default_local_loopback {}
    { name := "t1", host := "A", forward := some (NewAddress "10.0.0.5:80") }
    (NewAddress "10.0.0.5:80") (Or.inl rfl) rfl (by decide) (by decide)

/-! ## Jump-host resolver lemmas (C5, C1) -/

theorem vjhAux_false (keys : List String) : ∀ (ports : List Nat) (st : ValState),
    (vjhAux keys ports st false).2.2 = false := by
  induction keys with
  | nil => intro ports st; rfl
  | cons nm rest ih =>
    intro ports st
    rw [vjhAux]
    cases hl : lookupS nm st.hosts with
    | none => exact ih ports st
    | some h =>
      dsimp only
      by_cases hq : h.jumpHost ≠ "" ∧ h.isHost
      · rw [if_pos hq]
        cases hjl : lookupS h.jumpHost st.hosts with
        | none => exact ih ports st
        | some jh =>
          dsimp only
          by_cases hjj : jh.jumpHost ≠ ""
          · rw [if_pos hjj]
            exact ih ports st
          · rw [if_neg hjj]
            cases ports with
            | nil => rfl
            | cons p ports2 => exact ih ports2 _
      · rw [if_neg hq]
        exact ih ports st

theorem jumpInv_upsert (hosts : List (String × Host)) (nm key : String) (hh hh2 : Host)
    (hl : lookupS key hosts = some hh) (hj : hh2.jumpHost = hh.jumpHost)
    (hi : hh.isHost = true → hh2.isHost = true)
    (hinv : jumpInv hosts nm) : jumpInv (upsert key hh2 hosts) nm := by
  obtain ⟨h, hnm, hih, hjne, hjall⟩ := hinv
  by_cases he : nm = key
  · subst he
    have hx : some h = some hh := hnm.symm.trans hl
    injection hx with hx
    subst hx
    refine ⟨hh2, lookupS_upsert_eq nm hh2 hosts, hi hih, by rw [hj]; exact hjne, ?_⟩
    by_cases hk : hh2.jumpHost = nm
    · rw [hk, lookupS_upsert_eq]
      simp only [Option.map_some', Option.getD_some]
      rw [hj]
      exact bne_iff_ne.mpr hjne
    · rw [lookupS_upsert_ne nm hh2.jumpHost hh2 hosts hk, hj]
      exact hjall
  · refine ⟨h, by rw [lookupS_upsert_ne key nm hh2 hosts he]; exact hnm, hih, hjne, ?_⟩
    by_cases hk : h.jumpHost = key
    · rw [hk, lookupS_upsert_eq]
      rw [hk, hl] at hjall
      simp only [Option.map_some', Option.getD_some] at hjall
      simp [hj, hjall]
    · rw [lookupS_upsert_ne key h.jumpHost hh2 hosts hk]
      exact hjall

theorem tunnelValidate_hosts_cases (st : ValState) (t : Tunnel) :
    (Tunnel.validate st t).1.hosts = st.hosts
      ∨ ∃ key hh, lookupS key st.hosts = some hh
          ∧ (Tunnel.validate st t).1.hosts
              = upsert key { hh with isHost := true } st.hosts := by
  have hproj : (Tunnel.validate st t).1.hosts
      = (if trimS t.host == "" then st.hosts
         else match lookupS (trimS t.host) st.hosts with
           | none => st.hosts
           | some hh => upsert (trimS t.host) { hh with isHost := true } st.hosts) := rfl
  rw [hproj]
  cases he : (trimS t.host == "") with
  | true =>
    rw [if_pos rfl]
    exact Or.inl rfl
  | false =>
    rw [if_neg (by simp)]
    cases hll : lookupS (trimS t.host) st.hosts with
    | none => exact Or.inl rfl
    | some hh => exact Or.inr ⟨trimS t.host, hh, hll, rfl⟩

theorem jumpInv_step (st : ValState) (k : String) (h : Host) (jt : Tunnel) (nm : String)
    (hlk : lookupS k st.hosts = some h) (hih : h.isHost = true) (X : Option Address)
    (hinv : jumpInv st.hosts nm) :
    jumpInv (upsert k { h with address := X } (Tunnel.validate st jt).1.hosts) nm := by
  have h1 : jumpInv (Tunnel.validate st jt).1.hosts nm := by
    rcases tunnelValidate_hosts_cases st jt with hc | ⟨key, hh, hl2, hc⟩
    · rw [hc]
      exact hinv
    · rw [hc]
      exact jumpInv_upsert st.hosts nm key hh { hh with isHost := true } hl2 rfl
        (fun _ => rfl) hinv
  have h2 : ∃ hh, lookupS k (Tunnel.validate st jt).1.hosts = some hh
      ∧ hh.jumpHost = h.jumpHost := by
    rcases tunnelValidate_hosts_cases st jt with hc | ⟨key, hh, hl2, hc⟩
    · rw [hc]
      exact ⟨h, hlk, rfl⟩
    · rw [hc]
      by_cases he : k = key
      · subst he
        have hx : some h = some hh := hlk.symm.trans hl2
        injection hx with hx
        subst hx
        exact ⟨{ h with isHost := true }, lookupS_upsert_eq _ _ _, rfl⟩
      · rw [lookupS_upsert_ne key k _ _ he]
        exact ⟨h, hlk, rfl⟩
  obtain ⟨hh, hl3, hj3⟩ := h2
  exact jumpInv_upsert _ nm k hh { h with address := X } hl3 (by rw [hj3])
    (fun _ => hih) h1

/-- A key whose registry entry is a tunnel-referenced host with a bad jump
chain forces `validateJumpHosts` to return false, wherever the key sits in
the iteration order. -/
theorem vjhAux_multihop (keys : List String) : ∀ (ports : List Nat) (st : ValState)
    (valid : Bool) (nm : String), nm ∈ keys → jumpInv st.hosts nm →
    (vjhAux keys ports st valid).2.2 = false := by
  induction keys with
  | nil =>
    intro ports st valid nm hmem _
    exact absurd hmem (List.not_mem_nil nm)
  | cons k rest ih =>
    intro ports st valid nm hmem hinv
    rw [vjhAux]
    cases hl : lookupS k st.hosts with
    | none =>
      have hne : nm ≠ k := by
        intro he
        subst he
        obtain ⟨h, hnm, _⟩ := hinv
        exact Option.noConfusion (hl.symm.trans hnm)
      have hmem2 : nm ∈ rest := by
        rcases List.mem_cons.mp hmem with he | hm
        · exact absurd he hne
        · exact hm
      exact ih ports st valid nm hmem2 hinv
    | some h =>
      dsimp only
      by_cases hq : h.jumpHost ≠ "" ∧ h.isHost
      · rw [if_pos hq]
        cases hjl : lookupS h.jumpHost st.hosts with
        | none => exact vjhAux_false rest ports st
        | some jh =>
          dsimp only
          by_cases hjj : jh.jumpHost ≠ ""
          · rw [if_pos hjj]
            exact vjhAux_false rest ports st
          · rw [if_neg hjj]
            by_cases he : k = nm
            · subst he
              obtain ⟨h0, hnm, hih0, hjne0, hjall0⟩ := hinv
              have hx : some h = some h0 := hl.symm.trans hnm
              injection hx with hx
              subst hx
              rw [hjl] at hjall0
              simp only [Option.map_some', Option.getD_some] at hjall0
              exact absurd (bne_iff_ne.mp hjall0) hjj
            · have hmem2 : nm ∈ rest := by
                rcases List.mem_cons.mp hmem with he2 | hm
                · exact absurd he2.symm he
                · exact hm
              cases ports with
              | nil => rfl
              | cons p ports2 =>
                exact ih ports2 _ valid nm hmem2
                  (jumpInv_step st k h _ nm hl hq.2 _ hinv)
      · rw [if_neg hq]
        have hne : nm ≠ k := by
          intro he
          subst he
          obtain ⟨h0, hnm, hih0, hjne0, _⟩ := hinv
          have hx : some h = some h0 := hl.symm.trans hnm
          injection hx with hx
          subst hx
          exact hq ⟨hjne0, hih0⟩
        have hmem2 : nm ∈ rest := by
          rcases List.mem_cons.mp hmem with he | hm
          · exact absurd he hne
          · exact hm
        exact ih ports st valid nm hmem2 hinv

/-- A host that names itself (after trimming) as its jump host never
validates (host.go:153-160). -/
theorem hostValidate_selfJump (env : Env) (du : String) (st : ValState) (h : Host)
    (hjh : h.jumpHost ≠ "") (hself : h.jumpHost = trimS h.name) :
    (Host.validate env du st h).2.2 = false := by
  have h2 : trimS h.name ≠ "" := by
    rw [← hself]
    exact hjh
  simp [Host.validate, hself, h2]

/-- A false accumulator stays false through the validation folds. -/
theorem foldl_false {σ α : Type} (f : σ × Bool → α → σ × Bool)
    (hf : ∀ acc x, acc.2 = false → (f acc x).2 = false) :
    ∀ (l : List α) (acc : σ × Bool), acc.2 = false → (l.foldl f acc).2 = false := by
  intro l
  induction l with
  | nil =>
    intro acc h
    exact h
  | cons x rest ih =>
    intro acc h
    exact ih (f acc x) (hf acc x h)

/-- A host whose validation fails from every registry state drags the
host-validation fold to false. -/
theorem hostsFold_false (env : Env) (du : String) (h : Host)
    (hbad : ∀ st, (Host.validate env du st h).2.2 = false) :
    ∀ (hosts : List Host) (acc : ValState × Bool), h ∈ hosts →
      (hosts.foldl (fun acc h2 =>
        let r := Host.validate env du acc.1 h2
        (r.1, acc.2 && r.2.2)) acc).2 = false := by
  intro hosts
  induction hosts with
  | nil =>
    intro acc hmem
    exact absurd hmem (List.not_mem_nil h)
  | cons x rest ih =>
    intro acc hmem
    rcases List.mem_cons.mp hmem with he | hm
    · subst he
      refine foldl_false _ ?_ rest _ ?_
      · intro acc2 x2 hacc
        simp [hacc]
      · simp [hbad acc.1]
    · exact ih _ hm

/-- C5 counterexample: hosts `A -> B -> C` form a multi-hop jump chain (`A`
names jump host `B`, which itself names jump host `C`), yet with no tunnel
referencing `A` the resolver skips it — the `h.JumpHost != "" && h.isHost`
guard — and the whole configuration validates successfully. -/
theorem C5_unreferenced_chain_passes :
    (Configuration.validate ⟨fun _ => true, fun _ => acceptAllKeys, fun _ => true, false⟩
      "u" []
      { hosts := [
          { name := "A", address := some (NewAddress "10.0.0.1:22"), identity := "id", jumpHost := "B" },
          { name := "B", address := some (NewAddress "10.0.0.2:22"), identity := "id", jumpHost := "C" },
          { name := "C", address := some (NewAddress "10.0.0.3:22"), identity := "id" }],
        tunnels := [] }).2 = true := by
  decide

/-- **C5** (amended): a Host that names itself (after trimming) as its own
jump host fails validation and makes the overall configuration validation
return false; and when, after the host and tunnel passes, some registered
host is a tunnel target (`isHost`) whose named jump host is undefined or
itself names a jump host, jump-host resolution fails and the overall
configuration validation returns false.  Hosts no tunnel references are
skipped by the resolver, so a multi-hop chain on an unreferenced host does
not fail validation. -/
theorem C5_jump_chain_rejected (env : Env) (du : String) (ports : List Nat)
    (cfg : Configuration) :
    (∀ h ∈ cfg.hosts, h.jumpHost ≠ "" → h.jumpHost = trimS h.name →
        (Configuration.validate env du ports cfg).2 = false)
    ∧ (∀ nm, jumpInv (validateHostsAndTunnels env du cfg).1.hosts nm →
        (Configuration.validate env du ports cfg).2 = false) := by
  constructor
  · intro h hmem hjh hself
    have hbad : ∀ st, (Host.validate env du st h).2.2 = false :=
      fun st => hostValidate_selfJump env du st h hjh hself
    have h0 := hostsFold_false env du h hbad cfg.hosts ({}, true) hmem
    have h1 : (validateHostsAndTunnels env du cfg).2 = false :=
      foldl_false (fun acc t =>
          let r := Tunnel.validate acc.1 t
          (r.1, acc.2 && r.2.2))
        (fun acc x hacc => by simp [hacc]) cfg.tunnels _ h0
    simp [Configuration.validate, h1]
  · intro nm hinv
    obtain ⟨h, hnm, _, _, _⟩ := hinv
    have hmem : nm ∈ (validateHostsAndTunnels env du cfg).1.hosts.map Prod.fst :=
      List.mem_map_of_mem Prod.fst (lookupS_mem nm h _ hnm)
    have h2 := vjhAux_multihop ((validateHostsAndTunnels env du cfg).1.hosts.map Prod.fst)
      ports (validateHostsAndTunnels env du cfg).1 true nm hmem
      ⟨h, hnm, by assumption, by assumption, by assumption⟩
    simp [Configuration.validate, validateJumpHosts, h2]

theorem C5_jump_chain_rejected_witness :
    ((Configuration.validate ⟨fun _ => true, fun _ => acceptAllKeys, fun _ => true, false⟩
        "u" []
        { hosts := [{ name := "S", address := some (NewAddress "10.0.0.1:22"), identity := "id", jumpHost := "S" }],
          tunnels := [] }).2 = false)
    ∧ ((Configuration.validate ⟨fun _ => true, fun _ => acceptAllKeys, fun _ => true, false⟩
        "u" [7000]
        { hosts := [
            { name := "A", address := some (NewAddress "10.0.0.1:22"), identity := "id", jumpHost := "B" },
            { name := "B", address := some (NewAddress "10.0.0.2:22"), identity := "id", jumpHost := "C" },
            { name := "C", address := some (NewAddress "10.0.0.3:22"), identity := "id" }],
          tunnels := [{ name := "t", localA := some (NewAddress "127.0.0.1:9000"), host := "A", forward := some (NewAddress "9.9.9.9:80") }] }).2 = false) := by
  constructor
  · exact (C5_jump_chain_rejected _ "u" [] _).1
      { name := "S", address := some (NewAddress "10.0.0.1:22"), identity := "id", jumpHost := "S" }
      (List.mem_cons_self _ _) (by decide) (by decide)
  · exact (C5_jump_chain_rejected _ "u" [7000] _).2 "A" ⟨_, rfl, rfl, by decide, rfl⟩

end Ferret
